import Mathlib

/-!
Shallow embedding of the DynamoDB event store (`eventstore.go` of
`eh-dynamo`).  The DynamoDB table is modelled as a list of records; the
conditional-put / conditional-update primitives of the store are modelled
faithfully (a put guarded by `attribute_not_exists` fails with a
`ConditionalCheckFailedException` when the `(AggregateID, Version)` key is
already occupied, and so on).  Storage-layer failures (network errors,
`ResourceNotFoundException`, ...) are injected through explicit fault
parameters: `faults i` is the error, if any, returned by the store for the
`i`-th write issued by the operation.  Payload (de)serialisation and the
event-type registry (`eh.CreateEventData`, `dynamodbattribute.MarshalMap` /
`UnmarshalMap`) are external collaborators and are modelled by a `Codec`
parameter.
-/

namespace EhDynamo

/-- An AWS error: either an `awserr.RequestFailure` carrying a code, or any
other error. -/
inductive AwsErr where
  | requestFailure (code : String) (msg : String)
  | generic (msg : String)
  deriving DecidableEq, Repr

/-- `err.(awserr.RequestFailure); ok && err.Code() == code` from Go. -/
def AwsErr.isCode : AwsErr → String → Bool
  | .requestFailure c _, code => c == code
  | .generic _, _ => false

/-- The `ConditionalCheckFailedException` returned by DynamoDB when the
condition of a conditional write does not hold. -/
def condCheckFailed : AwsErr := .requestFailure "ConditionalCheckFailedException" ""

/-- The sentinel causes stored in `eh.EventStoreError.Err` (plus `aws` for a
wrapped underlying storage error). -/
inductive ErrCause where
  | missingEvents
  | mismatchedEventAggregateIDs
  | incorrectEventVersion
  | couldNotSaveAggregate
  | couldNotUnmarshalEvent
  | couldNotMarshalEvent
  | aws (e : AwsErr)
  deriving DecidableEq, Repr

/-- An `eh.Event` as seen by the store: the accessor results of the
interface.  Payload type `D`, timestamps and metadata opaque. -/
structure EHEvent (D : Type) where
  eventType : String
  data : Option D
  timestamp : Nat
  aggregateType : String
  aggregateID : String
  version : Int
  metadata : Nat
  deriving DecidableEq, Repr

/-- `eh.EventStoreError` (the fields set by this adapter). -/
structure EventStoreError (D : Type) where
  err : ErrCause
  op : String := ""
  aggregateType : String := ""
  aggregateID : String := ""
  aggregateVersion : Int := 0
  events : List (EHEvent D) := []
  deriving DecidableEq, Repr

/-- An error returned by a store operation: either a `*eh.EventStoreError`,
or one of the plain sentinel errors returned by `Replace`. -/
inductive EsError (D : Type) where
  | storeErr (e : EventStoreError D)
  | aggregateNotFound
  | missingEvent
  deriving DecidableEq, Repr

/-- The `dbEvent` record persisted in the table (`RawData` is the marshalled
attribute map `R`; `data` is the unexported decoded-payload field). -/
structure DbEvent (D R : Type) where
  aggregateID : String
  version : Int
  eventType : String
  rawData : Option R
  data : Option D
  timestamp : Nat
  aggregateType : String
  metadata : Nat
  deriving DecidableEq, Repr

/-- The external codec / registry collaborator: `eh.CreateEventData` and
`dynamodbattribute.MarshalMap` / `UnmarshalMap` (`none` = failure; the
unmarshal input is the stored `RawData`, which may be absent). -/
structure Codec (D R : Type) where
  createEventData : String → Option D
  unmarshalMap : Option R → D → Option D
  marshalMap : D → Option R

variable {D R : Type}

/-- Key equality of a record against an `(AggregateID, Version)` pair. -/
def DbEvent.sameKey (x : DbEvent D R) (id : String) (v : Int) : Bool :=
  x.aggregateID == id && x.version == v

/-- The DynamoDB table: its current items. -/
structure Store (D R : Type) where
  items : List (DbEvent D R)
  deriving DecidableEq, Repr

/-- Whether some item occupies the `(id, v)` key slot. -/
def Store.hasKey (s : Store D R) (id : String) (v : Int) : Bool :=
  s.items.any (fun x => x.sameKey id v)

/-- `table.Put(e).If("attribute_not_exists(AggregateID) AND
attribute_not_exists(Version)").Run()`: fails with
`ConditionalCheckFailedException` when the key slot is occupied, otherwise
inserts the item.  `fault` is an injected storage failure for this call. -/
def Store.putIfNotExists (s : Store D R) (fault : Option AwsErr) (e : DbEvent D R) :
    Except AwsErr (Store D R) :=
  match fault with
  | some err => .error err
  | none =>
    if s.hasKey e.aggregateID e.version then .error condCheckFailed
    else .ok ⟨s.items ++ [e]⟩

/-- `table.Put(e).If("attribute_exists(AggregateID) AND
attribute_exists(Version)").Run()`: fails with
`ConditionalCheckFailedException` when no item occupies the key slot,
otherwise replaces the item at that slot. -/
def Store.putIfExists (s : Store D R) (fault : Option AwsErr) (e : DbEvent D R) :
    Except AwsErr (Store D R) :=
  match fault with
  | some err => .error err
  | none =>
    if s.hasKey e.aggregateID e.version then
      .ok ⟨s.items.map (fun x => if x.sameKey e.aggregateID e.version then e else x)⟩
    else .error condCheckFailed

/-- `table.Update("AggregateID", id).Range("Version", v).If("EventType = ?",
fromType).Set("EventType", toType).Run()`: fails with
`ConditionalCheckFailedException` unless an item occupies the key slot and
its `EventType` equals `fromType`; otherwise rewrites the `EventType`
attribute of the item at that slot. -/
def Store.updateEventType (s : Store D R) (fault : Option AwsErr)
    (id : String) (v : Int) (fromType toType : String) : Except AwsErr (Store D R) :=
  match fault with
  | some err => .error err
  | none =>
    if s.items.any (fun x => x.sameKey id v && x.eventType == fromType) then
      .ok ⟨s.items.map (fun x => if x.sameKey id v then { x with eventType := toType } else x)⟩
    else .error condCheckFailed

/-- Range-key order used by a DynamoDB query within one partition. -/
def verLE (a b : DbEvent D R) : Prop := a.version ≤ b.version

instance : DecidableRel (verLE (D := D) (R := R)) :=
  fun a b => inferInstanceAs (Decidable (a.version ≤ b.version))

instance : IsTotal (DbEvent D R) verLE := ⟨fun a b => le_total a.version b.version⟩

instance : IsTrans (DbEvent D R) verLE := ⟨fun _ _ _ h h2 => le_trans h h2⟩

/-- `table.Get("AggregateID", id).Consistent(true).All(&dbEvents)`: all
items of the partition, in ascending range-key (`Version`) order. -/
def Store.query (s : Store D R) (id : String) : List (DbEvent D R) :=
  (s.items.filter (fun x => x.aggregateID == id)).insertionSort verLE

/-- `newDBEvent` (`eventstore.go`): marshal the payload when there is one,
failing with `ErrCouldNotMarshalEvent` when the codec cannot, and build the
record. -/
def newDBEvent (c : Codec D R) (e : EHEvent D) : Except (EventStoreError D) (DbEvent D R) :=
  match e.data with
  | none =>
    .ok { aggregateID := e.aggregateID, version := e.version, eventType := e.eventType,
          rawData := none, data := none, timestamp := e.timestamp,
          aggregateType := e.aggregateType, metadata := e.metadata }
  | some d =>
    match c.marshalMap d with
    | none => .error { err := .couldNotMarshalEvent }
    | some r =>
      .ok { aggregateID := e.aggregateID, version := e.version, eventType := e.eventType,
            rawData := some r, data := none, timestamp := e.timestamp,
            aggregateType := e.aggregateType, metadata := e.metadata }

/-- The record `newDBEvent` produces when marshalling succeeds. -/
def dbRecordOf (c : Codec D R) (e : EHEvent D) : DbEvent D R :=
  { aggregateID := e.aggregateID, version := e.version, eventType := e.eventType,
    rawData := e.data.bind c.marshalMap, data := none, timestamp := e.timestamp,
    aggregateType := e.aggregateType, metadata := e.metadata }

/-- The loop body of `Save`: per event, validate the aggregate id and the
sequential version, build the record, and issue the conditional put.  The
operation is stateful, so the (store, optional error) pair is returned even
on failure.  `idA`/`aggregateID` are `events[0].AggregateID()`, `atA` is
`events[0].AggregateType()`, `allEvents` the original batch (reported in
errors), `idx` counts the puts issued so far (for fault injection). -/
def saveLoop (c : Codec D R) (faults : Nat → Option AwsErr)
    (idA aggregateID atA : String) (originalVersion : Int) (allEvents : List (EHEvent D)) :
    List (EHEvent D) → Int → Nat → Store D R → Store D R × Option (EsError D)
  | [], _, _, s => (s, none)
  | e :: rest, version, idx, s =>
    if e.aggregateID ≠ aggregateID then
      (s, some (.storeErr
        { err := .mismatchedEventAggregateIDs, op := "save", aggregateType := atA,
          aggregateID := idA, aggregateVersion := originalVersion, events := allEvents }))
    else if e.version ≠ version + 1 then
      (s, some (.storeErr
        { err := .incorrectEventVersion, op := "save", aggregateType := atA,
          aggregateID := idA, aggregateVersion := originalVersion, events := allEvents }))
    else
      match newDBEvent c e with
      | .error err => (s, some (.storeErr err))
      | .ok dbe =>
        match s.putIfNotExists (faults idx) dbe with
        | .error aerr =>
          if aerr.isCode "ConditionalCheckFailedException" then
            (s, some (.storeErr
              { err := .couldNotSaveAggregate, op := "save", aggregateType := atA,
                aggregateID := idA, aggregateVersion := originalVersion,
                events := allEvents }))
          else
            (s, some (.storeErr
              { err := .aws aerr, op := "save", aggregateType := atA,
                aggregateID := idA, aggregateVersion := originalVersion,
                events := allEvents }))
        | .ok s2 =>
          saveLoop c faults idA aggregateID atA originalVersion allEvents rest
            (version + 1) (idx + 1) s2

/-- `EventStore.Save`: reject an empty batch with `ErrMissingEvents`, then
run the per-event loop starting at `originalVersion`. -/
def Save (c : Codec D R) (faults : Nat → Option AwsErr) (s : Store D R)
    (events : List (EHEvent D)) (originalVersion : Int) : Store D R × Option (EsError D) :=
  match events with
  | [] => (s, some (.storeErr { err := .missingEvents, op := "save" }))
  | e0 :: _ =>
    saveLoop c faults e0.aggregateID e0.aggregateID e0.aggregateType originalVersion
      events events originalVersion 0 s

/-- `EventStore.buildEvents`: decode each record.  When the registry has no
constructor for the record's `EventType`, the record is kept as loaded;
when it has one but unmarshalling the stored `RawData` fails, the whole
load fails with `ErrCouldNotUnmarshalEvent`; otherwise the decoded payload
is stored in `data` and `RawData` is cleared. -/
def buildEvents (c : Codec D R) : List (DbEvent D R) → Except (EsError D) (List (DbEvent D R))
  | [] => .ok []
  | dbe :: rest =>
    match c.createEventData dbe.eventType with
    | some data0 =>
      match c.unmarshalMap dbe.rawData data0 with
      | none => .error (.storeErr { err := .couldNotUnmarshalEvent, op := "load" })
      | some d =>
        match buildEvents c rest with
        | .error e => .error e
        | .ok out => .ok ({ dbe with data := some d, rawData := none } :: out)
    | none =>
      match buildEvents c rest with
      | .error e => .error e
      | .ok out => .ok (dbe :: out)

/-- `EventStore.Load`: a strongly consistent query of the aggregate's
partition.  `loadFault` is the error, if any, returned by the query; a
`ResourceNotFoundException` is translated to an empty result, any other
failure is wrapped in an `eh.EventStoreError`; otherwise the records are
decoded by `buildEvents`. -/
def Load (c : Codec D R) (loadFault : Option AwsErr) (s : Store D R) (id : String) :
    Except (EsError D) (List (DbEvent D R)) :=
  match loadFault with
  | some err =>
    if err.isCode "ResourceNotFoundException" then .ok []
    else .error (.storeErr { err := .aws err, op := "load", aggregateID := id })
  | none => buildEvents c (s.query id)

/-- `EventStore.Replace`: count the aggregate's records (failing with
`eh.ErrAggregateNotFound` when there are none), build the replacement
record, and issue a conditional put guarded by
`attribute_exists(AggregateID) AND attribute_exists(Version)`; a
`ConditionalCheckFailedException` becomes `eh.ErrMissingEvent`.
`countFault` / `putFault` are injected storage failures of the two calls. -/
def Replace (c : Codec D R) (countFault putFault : Option AwsErr) (s : Store D R)
    (e : EHEvent D) : Store D R × Option (EsError D) :=
  match countFault with
  | some err => (s, some (.storeErr { err := .aws err, op := "replace" }))
  | none =>
    if (s.items.filter (fun x => x.aggregateID == e.aggregateID)).length = 0 then
      (s, some .aggregateNotFound)
    else
      match newDBEvent c e with
      | .error err => (s, some (.storeErr err))
      | .ok dbe =>
        match s.putIfExists putFault dbe with
        | .error aerr =>
          if aerr.isCode "ConditionalCheckFailedException" then
            (s, some .missingEvent)
          else
            (s, some (.storeErr { err := .aws aerr, op := "replace" }))
        | .ok s2 => (s2, none)

/-- The loop body of `RenameEvent`: one conditional `EventType` update per
scanned record, aborting with the wrapped underlying error on the first
failed update (`Op` is not set on these errors in the source). -/
def renameLoop (faults : Nat → Option AwsErr) (fromType toType : String) :
    List (DbEvent D R) → Nat → Store D R → Store D R × Option (EsError D)
  | [], _, s => (s, none)
  | dbe :: rest, idx, s =>
    match s.updateEventType (faults idx) dbe.aggregateID dbe.version fromType toType with
    | .error err => (s, some (.storeErr { err := .aws err }))
    | .ok s2 => renameLoop faults fromType toType rest (idx + 1) s2

/-- `EventStore.RenameEvent`: scan for records with `EventType = fromType`
(`scanFault` an injected failure of the scan), then update each match. -/
def RenameEvent (scanFault : Option AwsErr) (faults : Nat → Option AwsErr)
    (s : Store D R) (fromType toType : String) : Store D R × Option (EsError D) :=
  match scanFault with
  | some err => (s, some (.storeErr { err := .aws err }))
  | none =>
    renameLoop faults fromType toType (s.items.filter (fun x => x.eventType == fromType)) 0 s

/-! ### Helper notions and lemmas -/

/-- `rangeInt a n` is the list `[a, a+1, ..., a+n-1]` of `n` consecutive
integers (used to state which versions an aggregate's history holds). -/
def rangeInt (a : Int) : Nat → List Int
  | 0 => []
  | n + 1 => a :: rangeInt (a + 1) n

lemma mem_rangeInt {a x : Int} {n : Nat} : x ∈ rangeInt a n ↔ a ≤ x ∧ x < a + n := by
  induction n generalizing a with
  | zero => simp [rangeInt]
  | succ k ih =>
    simp only [rangeInt, List.mem_cons, ih]
    constructor
    · rintro (rfl | ⟨h1, h2⟩) <;> constructor <;> omega
    · rintro ⟨h1, h2⟩
      rcases eq_or_lt_of_le h1 with rfl | h
      · exact Or.inl rfl
      · exact Or.inr ⟨by omega, by omega⟩

lemma sorted_rangeInt (a : Int) (n : Nat) : List.Sorted (· ≤ ·) (rangeInt a n) := by
  induction n generalizing a with
  | zero => simp [rangeInt]
  | succ k ih =>
    simp only [rangeInt, List.sorted_cons]
    exact ⟨fun b hb => by have := mem_rangeInt.mp hb; omega, ih (a + 1)⟩

lemma rangeInt_append (a : Int) (m n : Nat) :
    rangeInt a (m + n) = rangeInt a m ++ rangeInt (a + m) n := by
  induction m generalizing a with
  | zero => simp [rangeInt]
  | succ k ih =>
    have h1 : k + 1 + n = (k + n) + 1 := by omega
    rw [h1]
    simp only [rangeInt, ih (a + 1), List.cons_append]
    congr 3
    push_cast
    ring

lemma newDBEvent_ok_eq {c : Codec D R} {e : EHEvent D} {dbe : DbEvent D R}
    (h : newDBEvent c e = .ok dbe) : dbe = dbRecordOf c e := by
  cases hd : e.data with
  | none =>
    simp only [newDBEvent, hd, Except.ok.injEq] at h
    subst h
    simp [dbRecordOf, hd]
  | some d =>
    cases hm : c.marshalMap d with
    | none => simp [newDBEvent, hd, hm] at h
    | some r =>
      simp only [newDBEvent, hd, hm, Except.ok.injEq] at h
      subst h
      simp [dbRecordOf, hd, hm]

/-- Success characterisation of the `Save` loop: on success every event
passed validation (same aggregate id, consecutive versions) and its record
was appended to the table, in batch order. -/
lemma saveLoop_ok {c : Codec D R} {faults : Nat → Option AwsErr}
    {idA aggregateID atA : String} {ov : Int} {all : List (EHEvent D)} :
    ∀ (evs : List (EHEvent D)) (version : Int) (idx : Nat) (s s' : Store D R),
    saveLoop c faults idA aggregateID atA ov all evs version idx s = (s', none) →
    s'.items = s.items ++ evs.map (dbRecordOf c) ∧
    ∀ i (h : i < evs.length),
      (evs.get ⟨i, h⟩).aggregateID = aggregateID ∧
      (evs.get ⟨i, h⟩).version = version + i + 1 := by
  intro evs
  induction evs with
  | nil =>
    intro version idx s s' h
    simp only [saveLoop, Prod.mk.injEq] at h
    refine ⟨by simp [h.1], ?_⟩
    intro i hi
    exact absurd hi (by simp)
  | cons e rest ih =>
    intro version idx s s' h
    simp only [saveLoop] at h
    split at h
    · simp at h
    · split at h
      · simp at h
      · rename_i hidne hverne
        rw [not_ne_iff] at hidne hverne
        split at h
        · simp at h
        · rename_i dbe hnd
          split at h
          · split at h <;> simp at h
          · rename_i s2 hput
            obtain ⟨hitems, hvals⟩ := ih (version + 1) (idx + 1) s2 s' h
            have hs2 : s2.items = s.items ++ [dbe] := by
              unfold Store.putIfNotExists at hput
              split at hput
              · cases hput
              · split at hput
                · cases hput
                · cases hput; rfl
            have hdbe : dbe = dbRecordOf c e := newDBEvent_ok_eq hnd
            constructor
            · rw [hitems, hs2, hdbe]
              simp
            · intro i hi
              cases i with
              | zero => exact ⟨hidne, by simpa using hverne⟩
              | succ j =>
                have hj : j < rest.length := by simpa using hi
                obtain ⟨ha, hv⟩ := hvals j hj
                refine ⟨ha, ?_⟩
                simp only [List.get_cons_succ] at *
                rw [hv]
                push_cast
                ring

lemma length_rangeInt (a : Int) (n : Nat) : (rangeInt a n).length = n := by
  induction n generalizing a with
  | zero => rfl
  | succ k ih => simp [rangeInt, ih]

lemma get_rangeInt (a : Int) (n i : Nat) (h : i < (rangeInt a n).length) :
    (rangeInt a n).get ⟨i, h⟩ = a + i := by
  induction n generalizing a i with
  | zero => exact absurd h (by simp [rangeInt])
  | succ k ih =>
    cases i with
    | zero => simp [rangeInt]
    | succ j =>
      have hj : j < (rangeInt (a + 1) k).length := by
        simpa [rangeInt, length_rangeInt] using h
      simp only [rangeInt, List.get_cons_succ, ih (a + 1) j hj]
      push_cast
      ring

/-- Failure characterisation of the `Save` loop: when the loop stops with an
error, some prefix of `m` events (possibly all but the last attempted) was
validated and written; the store keeps exactly those records, and nothing
at or beyond the failing event was written. -/
lemma saveLoop_err {c : Codec D R} {faults : Nat → Option AwsErr}
    {idA aggregateID atA : String} {ov : Int} {all : List (EHEvent D)} :
    ∀ (evs : List (EHEvent D)) (version : Int) (idx : Nat) (s s' : Store D R)
      (err : EsError D),
    saveLoop c faults idA aggregateID atA ov all evs version idx s = (s', some err) →
    ∃ m, m < evs.length ∧
      s'.items = s.items ++ ((evs.take m).map (dbRecordOf c)) ∧
      ∀ e2 ∈ evs.take m, e2.aggregateID = aggregateID := by
  intro evs
  induction evs with
  | nil =>
    intro version idx s s' err h
    simp [saveLoop] at h
  | cons e rest ih =>
    intro version idx s s' err h
    simp only [saveLoop] at h
    split at h
    · rw [Prod.mk.injEq] at h
      exact ⟨0, by simp, by simp [h.1], by simp⟩
    · split at h
      · rw [Prod.mk.injEq] at h
        exact ⟨0, by simp, by simp [h.1], by simp⟩
      · rename_i hidne hverne
        rw [not_ne_iff] at hidne
        split at h
        · rw [Prod.mk.injEq] at h
          exact ⟨0, by simp, by simp [h.1], by simp⟩
        · rename_i dbe hnd
          split at h
          · have hs : s = s' := by
              split at h <;> (rw [Prod.mk.injEq] at h; exact h.1)
            exact ⟨0, by simp, by simp [hs], by simp⟩
          · rename_i s2 hput
            obtain ⟨m, hm, hitems, hmem⟩ := ih (version + 1) (idx + 1) s2 s' err h
            have hs2 : s2.items = s.items ++ [dbe] := by
              unfold Store.putIfNotExists at hput
              split at hput
              · cases hput
              · split at hput
                · cases hput
                · cases hput; rfl
            have hdbe : dbe = dbRecordOf c e := newDBEvent_ok_eq hnd
            refine ⟨m + 1, by simpa using hm, ?_, ?_⟩
            · rw [hitems, hs2, hdbe]
              simp
            · intro e2 he2
              simp only [List.take_succ_cons, List.mem_cons] at he2
              rcases he2 with rfl | he2
              · exact hidne
              · exact hmem e2 he2

/-- Splitting the `Save` loop at a batch position: the loop on `pre ++ rest`
runs `pre` first and continues with `rest` only when `pre` fully
succeeded. -/
lemma saveLoop_append {c : Codec D R} {faults : Nat → Option AwsErr}
    {idA aggregateID atA : String} {ov : Int} {all : List (EHEvent D)} :
    ∀ (pre rest : List (EHEvent D)) (version : Int) (idx : Nat) (s : Store D R),
    saveLoop c faults idA aggregateID atA ov all (pre ++ rest) version idx s =
      match saveLoop c faults idA aggregateID atA ov all pre version idx s with
      | (s1, none) => saveLoop c faults idA aggregateID atA ov all rest
          (version + pre.length) (idx + pre.length) s1
      | (s1, some e) => (s1, some e) := by
  intro pre
  induction pre with
  | nil => intro rest version idx s; simp [saveLoop]
  | cons e pre ih =>
    intro rest version idx s
    by_cases h1 : e.aggregateID ≠ aggregateID
    · simp [saveLoop, h1]
    · by_cases h2 : e.version ≠ version + 1
      · simp [saveLoop, h1, h2]
      · cases hnd : newDBEvent c e with
        | error err => simp [saveLoop, h1, h2, hnd]
        | ok dbe =>
          cases hput : s.putIfNotExists (faults idx) dbe with
          | error aerr =>
            simp only [List.cons_append, saveLoop, h1, h2, hnd, hput, if_false]
            split <;> rfl
          | ok s2 =>
            simp only [List.cons_append, List.append_eq, saveLoop, h1, if_false, h2, hnd,
              hput]
            rw [ih rest (version + 1) (idx + 1) s2]
            cases hres : saveLoop c faults idA aggregateID atA ov all pre (version + 1)
                (idx + 1) s2 with
            | mk s1 o =>
              cases o with
              | none =>
                have hv : version + 1 + (pre.length : Int) =
                    version + ((pre.length : Int) + 1) := by ring
                have hi : idx + 1 + pre.length = idx + (pre.length + 1) := by omega
                simp [hv, hi]
              | some e2 => simp

/-- When the codec can decode every record that has a registered
constructor, `buildEvents` succeeds and preserves the record count and the
version of each record. -/
lemma buildEvents_ok_versions {c : Codec D R}
    (hdec : ∀ et r d0, c.createEventData et = some d0 → c.unmarshalMap r d0 ≠ none) :
    ∀ l : List (DbEvent D R), ∃ out, buildEvents c l = .ok out ∧
      out.map DbEvent.version = l.map DbEvent.version := by
  intro l
  induction l with
  | nil => exact ⟨[], rfl, rfl⟩
  | cons x rest ih =>
    obtain ⟨out, hout, hver⟩ := ih
    cases hcd : c.createEventData x.eventType with
    | none => exact ⟨x :: out, by simp [buildEvents, hcd, hout], by simp [hver]⟩
    | some d0 =>
      cases hum : c.unmarshalMap x.rawData d0 with
      | none => exact absurd hum (hdec _ _ _ hcd)
      | some d =>
        refine ⟨{ x with data := some d, rawData := none } :: out, ?_, ?_⟩
        · simp [buildEvents, hcd, hum, hout]
        · simp [hver]

/-- Decoding the records just written by `Save`, when the codec round-trips
the payload of every event of the batch: each decoded record carries back
exactly the payload that was appended. -/
lemma buildEvents_roundtrip {c : Codec D R} :
    ∀ evs : List (EHEvent D),
    (∀ e ∈ evs, ∃ d r d0, e.data = some d ∧ c.marshalMap d = some r ∧
      c.createEventData e.eventType = some d0 ∧ c.unmarshalMap (some r) d0 = some d) →
    buildEvents c (evs.map (dbRecordOf c)) =
      .ok (evs.map (fun e => { dbRecordOf c e with data := e.data, rawData := none })) := by
  intro evs
  induction evs with
  | nil => intro _; rfl
  | cons e rest ih =>
    intro hall
    obtain ⟨d, r, d0, hd, hr, hd0, hu⟩ := hall e (by simp)
    have hrest := ih (fun x hx => hall x (by simp [hx]))
    have hraw : (dbRecordOf c e).rawData = some r := by simp [dbRecordOf, hd, hr]
    have het : (dbRecordOf c e).eventType = e.eventType := rfl
    simp only [List.map_cons, buildEvents, het, hd0, hraw, hu, hrest, hd]

/-! ### Claim theorems -/

/-- C1: for every batch of events appended for a fresh aggregate with
`expectedVersion = 0`, if `Save` returns success then `Load` for that
aggregate returns exactly `n` events carrying versions `1..n` in ascending
order, each with the payload that was appended (the codec is assumed to
round-trip each event's payload, and the load itself hits no storage
fault). -/
theorem save_load_roundtrip {c : Codec D R} {faults : Nat → Option AwsErr}
    {s s' : Store D R} {e0 : EHEvent D} {rest : List (EHEvent D)}
    (hsave : Save c faults s (e0 :: rest) 0 = (s', none))
    (hfresh : ∀ x ∈ s.items, x.aggregateID ≠ e0.aggregateID)
    (hcodec : ∀ e ∈ e0 :: rest, ∃ d r d0, e.data = some d ∧ c.marshalMap d = some r ∧
      c.createEventData e.eventType = some d0 ∧ c.unmarshalMap (some r) d0 = some d) :
    ∃ out, Load c none s' e0.aggregateID = .ok out ∧
      out.length = (e0 :: rest).length ∧
      ∀ i (h1 : i < out.length) (h2 : i < (e0 :: rest).length),
        (out.get ⟨i, h1⟩).version = i + 1 ∧
        (out.get ⟨i, h1⟩).data = ((e0 :: rest).get ⟨i, h2⟩).data := by
  simp only [Save] at hsave
  obtain ⟨hitems, hvals⟩ := saveLoop_ok (e0 :: rest) 0 0 s s' hsave
  have hidmem : ∀ e ∈ e0 :: rest, e.aggregateID = e0.aggregateID := by
    intro e he
    obtain ⟨n, rfl⟩ := List.mem_iff_get.mp he
    exact (hvals n.1 n.2).1
  have hfilter : s'.items.filter (fun x => x.aggregateID == e0.aggregateID) =
      (e0 :: rest).map (dbRecordOf c) := by
    rw [hitems, List.filter_append]
    have h1 : s.items.filter (fun x => x.aggregateID == e0.aggregateID) = [] := by
      rw [List.filter_eq_nil_iff]
      intro a ha
      simpa using hfresh a ha
    have h2 : ((e0 :: rest).map (dbRecordOf c)).filter
        (fun x => x.aggregateID == e0.aggregateID) = (e0 :: rest).map (dbRecordOf c) := by
      rw [List.filter_eq_self]
      intro a ha
      obtain ⟨e, he, rfl⟩ := List.mem_map.mp ha
      simpa [dbRecordOf] using hidmem e he
    rw [h1, h2, List.nil_append]
  have hver : ∀ i (h : i < ((e0 :: rest).map (dbRecordOf c)).length),
      (((e0 :: rest).map (dbRecordOf c)).get ⟨i, h⟩).version = (i : Int) + 1 := by
    intro i h
    have hlen : i < (e0 :: rest).length := by simpa using h
    have hv := (hvals i hlen).2
    simp only [List.get_eq_getElem, List.getElem_map]
    simp only [List.get_eq_getElem] at hv
    simp [dbRecordOf, hv]
  have hsorted : List.Sorted verLE ((e0 :: rest).map (dbRecordOf c)) := by
    show List.Pairwise verLE _
    rw [List.pairwise_iff_get]
    intro i j hij
    show verLE _ _
    unfold verLE
    rw [hver i.1 i.2, hver j.1 j.2]
    have : i.1 < j.1 := hij
    omega
  have hquery : s'.query e0.aggregateID = (e0 :: rest).map (dbRecordOf c) := by
    unfold Store.query
    rw [hfilter]
    exact List.Sorted.insertionSort_eq hsorted
  have hbe := buildEvents_roundtrip (e0 :: rest) hcodec
  refine ⟨(e0 :: rest).map (fun e => { dbRecordOf c e with data := e.data, rawData := none }),
    ?_, by simp, ?_⟩
  · simp only [Load, hquery]
    exact hbe
  · intro i h1 h2
    constructor
    · have hv := (hvals i h2).2
      simp only [List.get_eq_getElem] at hv
      simp only [List.get_eq_getElem, List.getElem_map]
      simp [dbRecordOf, hv]
    · simp only [List.get_eq_getElem, List.getElem_map]

/-! ### Concrete instances used by the witnesses -/

/-- A concrete codec on `Nat` payloads/raw data: the registry knows every
type tag, marshalling is the identity, and unmarshalling reads the raw
value back (so payloads round-trip). -/
def natCodec : Codec Nat Nat :=
  { createEventData := fun _ => some 0,
    unmarshalMap := fun r d => some (r.getD d),
    marshalMap := fun d => some d }

/-- No injected storage faults. -/
def noFaults : Nat → Option AwsErr := fun _ => none

/-- A concrete event for the witnesses. -/
def ev (id : String) (v : Int) (et : String) (d : Option Nat) : EHEvent Nat :=
  { eventType := et, data := d, timestamp := 0, aggregateType := "AggT",
    aggregateID := id, version := v, metadata := 0 }

/-- C1 witness: appending versions 1 and 2 with payloads 5 and 7 to a fresh
aggregate, the load returns both versions in order with those payloads. -/
theorem save_load_roundtrip_witness :
    ∃ out,
      Load natCodec none
        (Save natCodec noFaults ⟨[]⟩ [ev "A" 1 "T" (some 5), ev "A" 2 "T" (some 7)] 0).1
        (ev "A" 1 "T" (some 5)).aggregateID = .ok out ∧
      out.length = ([ev "A" 1 "T" (some 5), ev "A" 2 "T" (some 7)] : List (EHEvent Nat)).length ∧
      ∀ i (h1 : i < out.length)
        (h2 : i < ([ev "A" 1 "T" (some 5), ev "A" 2 "T" (some 7)] : List (EHEvent Nat)).length),
        (out.get ⟨i, h1⟩).version = i + 1 ∧
        (out.get ⟨i, h1⟩).data =
          (([ev "A" 1 "T" (some 5), ev "A" 2 "T" (some 7)] : List (EHEvent Nat)).get ⟨i, h2⟩).data := by
  refine @save_load_roundtrip Nat Nat natCodec noFaults ⟨[]⟩
    (Save natCodec noFaults ⟨[]⟩ [ev "A" 1 "T" (some 5), ev "A" 2 "T" (some 7)] 0).1
    (ev "A" 1 "T" (some 5)) [ev "A" 2 "T" (some 7)]
    (by decide) (by simp) ?_
  intro e he
  fin_cases he
  · exact ⟨5, 5, 0, rfl, rfl, rfl, rfl⟩
  · exact ⟨7, 7, 0, rfl, rfl, rfl, rfl⟩

/-- C2: when a `Save` of a batch carrying versions `v+1..v+k` over a store
that holds exactly versions `1..v` for the aggregate fails at the `j`-th
event of the batch, the batch records before `j` remain persisted (no
rollback), nothing at or beyond the failing event is persisted, and a
subsequent `Load` returns versions `1..v+j-1` and no more. -/
theorem save_partial_failure_committed {c : Codec D R} {faults : Nat → Option AwsErr}
    {s s1 : Store D R} {e0 : EHEvent D} {rest : List (EHEvent D)} {err : EsError D}
    {v : Nat}
    (hsave : Save c faults s (e0 :: rest) (v : Int) = (s1, some err))
    (hvers : ∀ i (h : i < (e0 :: rest).length),
      ((e0 :: rest).get ⟨i, h⟩).version = (v : Int) + i + 1)
    (hprev : (s.query e0.aggregateID).map DbEvent.version = rangeInt 1 v)
    (hdec : ∀ et r d0, c.createEventData et = some d0 → c.unmarshalMap r d0 ≠ none) :
    ∃ j, 1 ≤ j ∧ j ≤ (e0 :: rest).length ∧
      s1.items = s.items ++ (((e0 :: rest).take (j - 1)).map (dbRecordOf c)) ∧
      ∃ out, Load c none s1 e0.aggregateID = .ok out ∧
        out.map DbEvent.version = rangeInt 1 (v + (j - 1)) := by
  simp only [Save] at hsave
  obtain ⟨m, hm, hitems, hmem⟩ := saveLoop_err (e0 :: rest) v 0 s s1 err hsave
  have hBver : ((((e0 :: rest).take m).map (dbRecordOf c)).map DbEvent.version)
      = rangeInt ((v : Int) + 1) m := by
    apply List.ext_get
    · simp only [List.length_map, List.length_take, length_rangeInt]
      omega
    · intro i h1 h2
      rw [get_rangeInt]
      simp only [List.get_eq_getElem, List.getElem_map, List.getElem_take]
      have hi : i < (e0 :: rest).length := by
        simp only [List.length_map, List.length_take] at h1
        omega
      have hv := hvers i hi
      simp only [List.get_eq_getElem] at hv
      simp only [dbRecordOf, hv]
      ring
  have hfilter : s1.items.filter (fun x => x.aggregateID == e0.aggregateID)
      = s.items.filter (fun x => x.aggregateID == e0.aggregateID)
        ++ ((e0 :: rest).take m).map (dbRecordOf c) := by
    rw [hitems, List.filter_append]
    congr 1
    rw [List.filter_eq_self]
    intro a ha
    obtain ⟨e, he, rfl⟩ := List.mem_map.mp ha
    simpa [dbRecordOf] using hmem e he
  have hqver : (s1.query e0.aggregateID).map DbEvent.version = rangeInt 1 (v + m) := by
    have p1 : List.Perm ((s1.query e0.aggregateID).map DbEvent.version)
        ((s1.items.filter (fun x => x.aggregateID == e0.aggregateID)).map DbEvent.version) :=
      (List.perm_insertionSort verLE _).map DbEvent.version
    have p2 : List.Perm ((s.items.filter (fun x => x.aggregateID == e0.aggregateID)).map
        DbEvent.version) (rangeInt 1 v) := by
      rw [← hprev]
      exact ((List.perm_insertionSort verLE _).map DbEvent.version).symm
    have p3 : List.Perm ((s1.query e0.aggregateID).map DbEvent.version)
        (((s.items.filter (fun x => x.aggregateID == e0.aggregateID)).map DbEvent.version)
          ++ ((((e0 :: rest).take m).map (dbRecordOf c)).map DbEvent.version)) := by
      rw [← List.map_append, ← hfilter]
      exact p1
    have p4 := p3.trans (p2.append (List.Perm.refl _))
    rw [hBver] at p4
    have h5 : rangeInt 1 (v + m) = rangeInt 1 v ++ rangeInt ((v : Int) + 1) m := by
      rw [rangeInt_append 1 v m,
        (by ring : (1 : Int) + (v : Int) = (v : Int) + 1)]
    rw [← h5] at p4
    have hs1 : List.Sorted (· ≤ ·) ((s1.query e0.aggregateID).map DbEvent.version) := by
      apply List.Pairwise.map
      · intro a b hab
        exact hab
      · exact List.sorted_insertionSort verLE _
    exact @List.eq_of_perm_of_sorted Int (· ≤ ·) _ _ _ p4 hs1 (sorted_rangeInt 1 (v + m))
  obtain ⟨out, hout, hover⟩ := buildEvents_ok_versions hdec (s1.query e0.aggregateID)
  refine ⟨m + 1, by omega, by omega, by simpa using hitems, out, ?_, ?_⟩
  · simp only [Load]
    exact hout
  · rw [hover]
    simpa using hqver

/-- Faults used by the C2 witness: the second write fails with a generic
storage error. -/
def secondWriteFault : Nat → Option AwsErr :=
  fun i => if i = 1 then some (.generic "boom") else none

/-- The error the C2 witness save returns. -/
def secondWriteErr : EsError Nat := .storeErr
  { err := .aws (.generic "boom"), op := "save", aggregateType := "AggT",
    aggregateID := "B", aggregateVersion := 0,
    events := [ev "B" 1 "T" none, ev "B" 2 "T" none] }

/-- C2 witness: appending versions 1 and 2 to an empty store with the
second write failing persists exactly version 1, and the subsequent load
returns exactly version 1. -/
theorem save_partial_failure_committed_witness :
    ∃ j, 1 ≤ j ∧ j ≤ ([ev "B" 1 "T" none, ev "B" 2 "T" none] : List (EHEvent Nat)).length ∧
      (Save natCodec secondWriteFault ⟨[]⟩ [ev "B" 1 "T" none, ev "B" 2 "T" none]
          ((0 : Nat) : Int)).1.items =
        (⟨[]⟩ : Store Nat Nat).items ++
          ((([ev "B" 1 "T" none, ev "B" 2 "T" none] : List (EHEvent Nat)).take (j - 1)).map
            (dbRecordOf natCodec)) ∧
      ∃ out, Load natCodec none
          (Save natCodec secondWriteFault ⟨[]⟩ [ev "B" 1 "T" none, ev "B" 2 "T" none]
            ((0 : Nat) : Int)).1 (ev "B" 1 "T" none).aggregateID = .ok out ∧
        out.map DbEvent.version = rangeInt 1 (0 + (j - 1)) := by
  refine @save_partial_failure_committed Nat Nat natCodec secondWriteFault ⟨[]⟩
    (Save natCodec secondWriteFault ⟨[]⟩ [ev "B" 1 "T" none, ev "B" 2 "T" none]
      ((0 : Nat) : Int)).1
    (ev "B" 1 "T" none) [ev "B" 2 "T" none] secondWriteErr
    0 (by decide) (by decide) (by decide) ?_
  intro et r d0 hcd
  exact Option.some_ne_none _

/-- `Save` on a batch split as `pre ++ e :: rest` whose prefix `pre` was
fully validated and written continues the loop at event `e`, with the
version counter advanced by `pre.length`. -/
lemma save_split {c : Codec D R} {faults : Nat → Option AwsErr} {s s1 : Store D R}
    {e0 e : EHEvent D} {pre rest events : List (EHEvent D)} {v : Int}
    (hsplit : events = pre ++ e :: rest)
    (hhead : events.head? = some e0)
    (hloop : saveLoop c faults e0.aggregateID e0.aggregateID e0.aggregateType v events
      pre v 0 s = (s1, none)) :
    Save c faults s events v =
      saveLoop c faults e0.aggregateID e0.aggregateID e0.aggregateType v events
        (e :: rest) (v + pre.length) pre.length s1 := by
  subst hsplit
  cases pre with
  | nil =>
    simp only [List.nil_append] at hloop ⊢
    simp only [List.nil_append, List.head?] at hhead
    injection hhead with hhead
    subst hhead
    simp only [saveLoop, Prod.mk.injEq] at hloop
    simp only [Save, List.length_nil, Nat.cast_zero, add_zero, hloop.1]
  | cons p0 ptail =>
    simp only [List.cons_append] at hhead hloop ⊢
    simp only [List.head?] at hhead
    injection hhead with hhead
    subst hhead
    simp only [Save]
    have happ : saveLoop c faults p0.aggregateID p0.aggregateID p0.aggregateType v
        (p0 :: (ptail ++ e :: rest)) (p0 :: (ptail ++ e :: rest)) v 0 s =
        match saveLoop c faults p0.aggregateID p0.aggregateID p0.aggregateType v
            (p0 :: (ptail ++ e :: rest)) (p0 :: ptail) v 0 s with
        | (s2, none) => saveLoop c faults p0.aggregateID p0.aggregateID p0.aggregateType v
            (p0 :: (ptail ++ e :: rest)) (e :: rest) (v + (p0 :: ptail).length)
            (0 + (p0 :: ptail).length) s2
        | (s2, some e2) => (s2, some e2) :=
      saveLoop_append (p0 :: ptail) (e :: rest) v 0 s
    rw [happ, hloop]
    simp

/-- The error returned by the C3 counterexample save. -/
def mismatchErr : EsError Nat := .storeErr
  { err := .mismatchedEventAggregateIDs, op := "save", aggregateType := "AggT",
    aggregateID := "A", aggregateVersion := 0,
    events := [ev "A" 1 "T" none, ev "B" 2 "T" none] }

/-- C3 counterexample: a two-event batch whose second event belongs to a
different aggregate fails with `eh.ErrMismatchedEventAggregateIDs`, yet the
store is NOT left unchanged: the first event was already written before the
mismatch was detected. -/
theorem save_mismatch_counterexample :
    (Save natCodec noFaults ⟨[]⟩ [ev "A" 1 "T" none, ev "B" 2 "T" none] 0).2 =
      some mismatchErr ∧
    (Save natCodec noFaults ⟨[]⟩ [ev "A" 1 "T" none, ev "B" 2 "T" none] 0).1 ≠ ⟨[]⟩ := by
  decide

/-- C3 amended: a mismatched `aggregate_id` in the batch makes `Save` fail
with `eh.ErrMismatchedEventAggregateIDs`, and no write is issued for the
mismatched event or anything after it; but the events preceding the first
mismatch have already been written and are not rolled back, so the store is
left unchanged only when no validated event preceded the mismatch. -/
theorem save_mismatch_aborts {c : Codec D R} {faults : Nat → Option AwsErr}
    {s s1 : Store D R} {e0 e : EHEvent D} {pre rest events : List (EHEvent D)} {v : Int}
    (hsplit : events = pre ++ e :: rest)
    (hhead : events.head? = some e0)
    (hloop : saveLoop c faults e0.aggregateID e0.aggregateID e0.aggregateType v events
      pre v 0 s = (s1, none))
    (hmis : e.aggregateID ≠ e0.aggregateID) :
    Save c faults s events v =
      (s1, some (.storeErr
        { err := .mismatchedEventAggregateIDs, op := "save",
          aggregateType := e0.aggregateType, aggregateID := e0.aggregateID,
          aggregateVersion := v, events := events })) ∧
    s1.items = s.items ++ (pre.map (dbRecordOf c)) := by
  constructor
  · rw [save_split hsplit hhead hloop]
    simp [saveLoop, hmis]
  · exact (saveLoop_ok pre v 0 s s1 hloop).1

/-- C4: when the conditional put of an event hits an occupied
`(aggregate_id, version)` slot (all earlier events of the batch validated
and written), the whole append fails with `ErrCouldNotSaveAggregate`
wrapped in an `eh.EventStoreError` that reports the aggregate identity and
the expected version the caller supplied, and nothing further is
written. -/
theorem save_conflict_error {c : Codec D R} {faults : Nat → Option AwsErr}
    {s s1 : Store D R} {e0 e : EHEvent D} {pre rest events : List (EHEvent D)} {v : Int}
    (hsplit : events = pre ++ e :: rest)
    (hhead : events.head? = some e0)
    (hloop : saveLoop c faults e0.aggregateID e0.aggregateID e0.aggregateType v events
      pre v 0 s = (s1, none))
    (hid : e.aggregateID = e0.aggregateID)
    (hver : e.version = v + pre.length + 1)
    (hnd : newDBEvent c e = .ok (dbRecordOf c e))
    (hfault : faults pre.length = none)
    (hocc : s1.hasKey e.aggregateID e.version = true) :
    Save c faults s events v =
      (s1, some (.storeErr
        { err := .couldNotSaveAggregate, op := "save",
          aggregateType := e0.aggregateType, aggregateID := e0.aggregateID,
          aggregateVersion := v, events := events })) := by
  rw [save_split hsplit hhead hloop]
  have hkey : s1.hasKey (dbRecordOf c e).aggregateID (dbRecordOf c e).version = true := by
    simpa [dbRecordOf] using hocc
  simp [saveLoop, hid, hver, hnd, Store.putIfNotExists, hfault, hkey, condCheckFailed,
    AwsErr.isCode]

/-- C6: an event whose version does not equal its expected sequential value
`expectedVersion + position` makes `Save` fail with
`eh.ErrIncorrectEventVersion` before any write for that event is attempted
(the store keeps exactly the writes of the validated prefix); here the
offending event is the first one, all earlier events of the batch having
validated and written. -/
theorem save_version_check {c : Codec D R} {faults : Nat → Option AwsErr}
    {s s1 : Store D R} {e0 e : EHEvent D} {pre rest events : List (EHEvent D)} {v : Int}
    (hsplit : events = pre ++ e :: rest)
    (hhead : events.head? = some e0)
    (hloop : saveLoop c faults e0.aggregateID e0.aggregateID e0.aggregateType v events
      pre v 0 s = (s1, none))
    (hid : e.aggregateID = e0.aggregateID)
    (hbad : e.version ≠ v + pre.length + 1) :
    Save c faults s events v =
      (s1, some (.storeErr
        { err := .incorrectEventVersion, op := "save",
          aggregateType := e0.aggregateType, aggregateID := e0.aggregateID,
          aggregateVersion := v, events := events })) ∧
    s1.items = s.items ++ (pre.map (dbRecordOf c)) := by
  constructor
  · rw [save_split hsplit hhead hloop]
    simp [saveLoop, hid, hbad]
  · exact (saveLoop_ok pre v 0 s s1 hloop).1

/-- The store after the C3 witness save: the first event was written. -/
def c3Store : Store Nat Nat := ⟨[dbRecordOf natCodec (ev "A" 1 "T" none)]⟩

/-- C3 amended witness: the mismatch at the second event reports
`ErrMismatchedEventAggregateIDs` and leaves exactly the first event
written. -/
theorem save_mismatch_aborts_witness :
    Save natCodec noFaults ⟨[]⟩ [ev "A" 1 "T" none, ev "B" 2 "T" none] 0 =
      (c3Store, some mismatchErr) ∧
    c3Store.items = (⟨[]⟩ : Store Nat Nat).items ++
      (([ev "A" 1 "T" none]).map (dbRecordOf natCodec)) :=
  @save_mismatch_aborts Nat Nat natCodec noFaults ⟨[]⟩ c3Store
    (ev "A" 1 "T" none) (ev "B" 2 "T" none) [ev "A" 1 "T" none] []
    [ev "A" 1 "T" none, ev "B" 2 "T" none] 0 rfl rfl (by decide) (by decide)

/-- A store already holding a record at slot `("A", 1)` (the concurrent
writer's record). -/
def c4Store : Store Nat Nat :=
  ⟨[{ aggregateID := "A", version := 1, eventType := "T", rawData := none, data := none,
      timestamp := 0, aggregateType := "AggT", metadata := 0 }]⟩

/-- The concurrency-conflict error of the C4 witness. -/
def conflictErr : EsError Nat := .storeErr
  { err := .couldNotSaveAggregate, op := "save", aggregateType := "AggT",
    aggregateID := "A", aggregateVersion := 0, events := [ev "A" 1 "T" none] }

/-- C4 witness: appending version 1 while slot `("A", 1)` is already
occupied fails with the wrapped `ErrCouldNotSaveAggregate`, reporting the
aggregate id and the caller's expected version 0. -/
theorem save_conflict_error_witness :
    Save natCodec noFaults c4Store [ev "A" 1 "T" none] 0 = (c4Store, some conflictErr) :=
  @save_conflict_error Nat Nat natCodec noFaults c4Store c4Store
    (ev "A" 1 "T" none) (ev "A" 1 "T" none) [] [] [ev "A" 1 "T" none] 0
    rfl rfl (by decide) rfl (by decide) rfl rfl (by decide)

/-- The version-conflict error of the C6 witness. -/
def versionErr : EsError Nat := .storeErr
  { err := .incorrectEventVersion, op := "save", aggregateType := "AggT",
    aggregateID := "A", aggregateVersion := 0, events := [ev "A" 5 "T" none] }

/-- C6 witness: appending an event carrying version 5 with
`expectedVersion = 0` fails with `ErrIncorrectEventVersion` and writes
nothing. -/
theorem save_version_check_witness :
    Save natCodec noFaults ⟨[]⟩ [ev "A" 5 "T" none] 0 = (⟨[]⟩, some versionErr) ∧
    (⟨[]⟩ : Store Nat Nat).items = (⟨[]⟩ : Store Nat Nat).items ++
      (([] : List (EHEvent Nat)).map (dbRecordOf natCodec)) :=
  @save_version_check Nat Nat natCodec noFaults ⟨[]⟩ ⟨[]⟩
    (ev "A" 5 "T" none) (ev "A" 5 "T" none) [] [] [ev "A" 5 "T" none] 0
    rfl rfl (by decide) rfl (by decide)

lemma sameKey_iff {x : DbEvent D R} {id : String} {v : Int} :
    x.sameKey id v = true ↔ x.aggregateID = id ∧ x.version = v := by
  simp [DbEvent.sameKey]

/-- C5: decoding stored records: a record whose `event_type` has no
registered constructor is returned as loaded (payload left undecoded)
while all other records are fully decoded; but when a constructor exists
and unmarshalling the stored payload fails, the whole load fails with
`ErrCouldNotUnmarshalEvent`. -/
theorem buildEvents_decode_spec {c : Codec D R} :
    (∀ l : List (DbEvent D R),
      (∀ x ∈ l, c.createEventData x.eventType = none ∨
        ∃ d0 d, c.createEventData x.eventType = some d0 ∧
          c.unmarshalMap x.rawData d0 = some d) →
      ∃ out, buildEvents c l = .ok out ∧ out.length = l.length ∧
        ∀ i (h1 : i < l.length) (h2 : i < out.length),
          (c.createEventData (l.get ⟨i, h1⟩).eventType = none →
            out.get ⟨i, h2⟩ = l.get ⟨i, h1⟩) ∧
          (∀ d0, c.createEventData (l.get ⟨i, h1⟩).eventType = some d0 →
            ∃ d, c.unmarshalMap (l.get ⟨i, h1⟩).rawData d0 = some d ∧
              out.get ⟨i, h2⟩ = { l.get ⟨i, h1⟩ with data := some d, rawData := none })) ∧
    (∀ (pre : List (DbEvent D R)) (x : DbEvent D R) (post : List (DbEvent D R)),
      (∀ y ∈ pre, c.createEventData y.eventType = none ∨
        ∃ d0 d, c.createEventData y.eventType = some d0 ∧
          c.unmarshalMap y.rawData d0 = some d) →
      (∃ d0, c.createEventData x.eventType = some d0 ∧
        c.unmarshalMap x.rawData d0 = none) →
      buildEvents c (pre ++ x :: post) =
        .error (.storeErr { err := .couldNotUnmarshalEvent, op := "load" })) := by
  constructor
  · intro l
    induction l with
    | nil =>
      intro _
      exact ⟨[], rfl, rfl, fun i h1 => absurd h1 (by simp)⟩
    | cons x rest ih =>
      intro hall
      obtain ⟨out, hout, hlen, hpt⟩ := ih (fun y hy => hall y (List.mem_cons_of_mem _ hy))
      rcases hall x (by simp) with hnone | ⟨d0, d, hd0, hd⟩
      · refine ⟨x :: out, by simp [buildEvents, hnone, hout], by simp [hlen], ?_⟩
        intro i h1 h2
        cases i with
        | zero =>
          refine ⟨fun _ => rfl, fun d0 hd0 => ?_⟩
          exact absurd (show c.createEventData x.eventType = some d0 from hd0)
            (by simp [hnone])
        | succ j =>
          have hj1 : j < rest.length := by simpa using h1
          have hj2 : j < out.length := by simpa using h2
          simpa using hpt j hj1 hj2
      · refine ⟨{ x with data := some d, rawData := none } :: out,
          by simp [buildEvents, hd0, hd, hout], by simp [hlen], ?_⟩
        intro i h1 h2
        cases i with
        | zero =>
          refine ⟨fun hn => ?_, ?_⟩
          · exact absurd (show c.createEventData x.eventType = none from hn)
              (by simp [hd0])
          intro d0a hd0a
          have hd0b : c.createEventData x.eventType = some d0a := hd0a
          rw [hd0] at hd0b
          injection hd0b with hda
          subst hda
          exact ⟨d, hd, rfl⟩
        | succ j =>
          have hj1 : j < rest.length := by simpa using h1
          have hj2 : j < out.length := by simpa using h2
          simpa using hpt j hj1 hj2
  · intro pre x post
    induction pre with
    | nil =>
      intro _ hx
      obtain ⟨d0, hd0, hum⟩ := hx
      simp [buildEvents, hd0, hum]
    | cons y pre2 ih =>
      intro hall hx
      have hrec := ih (fun z hz => hall z (List.mem_cons_of_mem _ hz)) hx
      rcases hall y (by simp) with hnone | ⟨d0, d, hd0, hd⟩
      · simp [buildEvents, hnone, hrec]
      · simp [buildEvents, hd0, hd, hrec]

/-- A codec that only knows the event type tag "Known"; unmarshalling
returns the stored raw value, and fails when there is none. -/
def partialCodec : Codec Nat Nat :=
  { createEventData := fun et => if et = "Known" then some 0 else none,
    unmarshalMap := fun r _ => r,
    marshalMap := fun d => some d }

/-- A stored record with an unregistered event type. -/
def unkRec : DbEvent Nat Nat :=
  { aggregateID := "A", version := 1, eventType := "Unknown", rawData := some 3,
    data := none, timestamp := 0, aggregateType := "AggT", metadata := 0 }

/-- A stored record with a registered type and decodable payload. -/
def knRec : DbEvent Nat Nat :=
  { aggregateID := "A", version := 2, eventType := "Known", rawData := some 7,
    data := none, timestamp := 0, aggregateType := "AggT", metadata := 0 }

/-- A stored record with a registered type whose payload fails to decode. -/
def badRec : DbEvent Nat Nat :=
  { aggregateID := "A", version := 3, eventType := "Known", rawData := none,
    data := none, timestamp := 0, aggregateType := "AggT", metadata := 0 }

/-- C5 witness: a load over an unknown-type record and a known-type record
succeeds (the former kept undecoded, the latter decoded), while a load over
a record whose registered payload fails to decode errors out. -/
theorem buildEvents_decode_spec_witness :
    (∃ out, buildEvents partialCodec [unkRec, knRec] = .ok out ∧
      out.length = ([unkRec, knRec] : List (DbEvent Nat Nat)).length ∧
      ∀ i (h1 : i < ([unkRec, knRec] : List (DbEvent Nat Nat)).length) (h2 : i < out.length),
        (partialCodec.createEventData (([unkRec, knRec] : List (DbEvent Nat Nat)).get
            ⟨i, h1⟩).eventType = none →
          out.get ⟨i, h2⟩ = ([unkRec, knRec] : List (DbEvent Nat Nat)).get ⟨i, h1⟩) ∧
        (∀ d0, partialCodec.createEventData (([unkRec, knRec] : List (DbEvent Nat Nat)).get
            ⟨i, h1⟩).eventType = some d0 →
          ∃ d, partialCodec.unmarshalMap (([unkRec, knRec] : List (DbEvent Nat Nat)).get
              ⟨i, h1⟩).rawData d0 = some d ∧
            out.get ⟨i, h2⟩ =
              { ([unkRec, knRec] : List (DbEvent Nat Nat)).get ⟨i, h1⟩ with
                  data := some d, rawData := none })) ∧
    buildEvents partialCodec ([unkRec] ++ badRec :: []) =
      .error (.storeErr { err := .couldNotUnmarshalEvent, op := "load" }) := by
  constructor
  · refine buildEvents_decode_spec.1 [unkRec, knRec] ?_
    intro x hx
    fin_cases hx
    · exact Or.inl rfl
    · exact Or.inr ⟨0, 7, rfl, rfl⟩
  · refine buildEvents_decode_spec.2 [unkRec] badRec [] ?_ ⟨0, rfl, rfl⟩
    intro y hy
    fin_cases hy
    exact Or.inl rfl

/-- C7: loading an aggregate with no recorded events returns an empty
sequence and no error; a `ResourceNotFoundException` from the store is
treated as "no events"; any other storage failure is wrapped in an
`eh.EventStoreError`. -/
theorem load_missing_and_faults {c : Codec D R} (s : Store D R) (id : String) :
    (s.items.filter (fun x => x.aggregateID == id) = [] → Load c none s id = .ok []) ∧
    (∀ m, Load c (some (.requestFailure "ResourceNotFoundException" m)) s id = .ok []) ∧
    (∀ e2 : AwsErr, e2.isCode "ResourceNotFoundException" = false →
      Load c (some e2) s id =
        .error (.storeErr { err := .aws e2, op := "load", aggregateID := id })) := by
  refine ⟨?_, ?_, ?_⟩
  · intro hnil
    simp only [Load, Store.query, hnil]
    rfl
  · intro m
    simp [Load, AwsErr.isCode]
  · intro e2 hne
    simp [Load, hne]

/-- C7 witness: the three branches at concrete inputs. -/
theorem load_missing_and_faults_witness :
    Load natCodec none c4Store "Z" = .ok [] ∧
    Load natCodec (some (.requestFailure "ResourceNotFoundException" "gone")) c4Store "A" =
      .ok [] ∧
    Load natCodec (some (.generic "boom")) c4Store "A" =
      .error (.storeErr
        { err := .aws (.generic "boom"), op := "load", aggregateID := "A" }) :=
  ⟨(load_missing_and_faults c4Store "Z").1 (by decide),
   (load_missing_and_faults c4Store "A").2.1 "gone",
   (load_missing_and_faults c4Store "A").2.2 (.generic "boom") (by decide)⟩

/-- C8: `Replace` fails with `eh.ErrAggregateNotFound`, writing nothing,
when the aggregate has zero stored records; otherwise its conditional
write requires a record at the event's exact `(aggregate_id, version)`
slot, and when none is there it fails with `eh.ErrMissingEvent`, writing
nothing. -/
theorem replace_notfound_missing {c : Codec D R} (s : Store D R) (e : EHEvent D) :
    (∀ pf, (s.items.filter (fun x => x.aggregateID == e.aggregateID)).length = 0 →
      Replace c none pf s e = (s, some .aggregateNotFound)) ∧
    ((s.items.filter (fun x => x.aggregateID == e.aggregateID)).length ≠ 0 →
      newDBEvent c e = .ok (dbRecordOf c e) →
      s.hasKey e.aggregateID e.version = false →
      Replace c none none s e = (s, some .missingEvent)) := by
  constructor
  · intro pf h0
    simp [Replace, h0]
  · intro hne hnd hkey
    have hkey2 : s.hasKey (dbRecordOf c e).aggregateID (dbRecordOf c e).version = false := by
      simpa [dbRecordOf] using hkey
    simp [Replace, hne, hnd, Store.putIfExists, hkey2, condCheckFailed, AwsErr.isCode]

/-- C8 witness: replacing on an aggregate with no records fails with
`ErrAggregateNotFound`; replacing version 2 when only version 1 exists
fails with `ErrMissingEvent`; the store is unchanged in both cases. -/
theorem replace_notfound_missing_witness :
    Replace natCodec none none (⟨[]⟩ : Store Nat Nat) (ev "A" 1 "T" none) =
      (⟨[]⟩, some .aggregateNotFound) ∧
    Replace natCodec none none c4Store (ev "A" 2 "T" none) =
      (c4Store, some .missingEvent) :=
  ⟨(replace_notfound_missing ⟨[]⟩ (ev "A" 1 "T" none)).1 none (by decide),
   (replace_notfound_missing c4Store (ev "A" 2 "T" none)).2 (by decide) rfl (by decide)⟩

/-- C9: a successful `Replace` touches only the record at the event's
`(aggregate_id, version)` slot, whose `aggregate_id` and `version` are
unchanged; every other record of the store is unaffected. -/
theorem replace_frame {c : Codec D R} {cf pf : Option AwsErr} {s s2 : Store D R}
    {e : EHEvent D}
    (h : Replace c cf pf s e = (s2, none)) :
    s2.items.length = s.items.length ∧
    ∀ i (h1 : i < s.items.length) (h2 : i < s2.items.length),
      (¬((s.items.get ⟨i, h1⟩).aggregateID = e.aggregateID ∧
          (s.items.get ⟨i, h1⟩).version = e.version) →
        s2.items.get ⟨i, h2⟩ = s.items.get ⟨i, h1⟩) ∧
      ((s.items.get ⟨i, h1⟩).aggregateID = e.aggregateID ∧
          (s.items.get ⟨i, h1⟩).version = e.version →
        (s2.items.get ⟨i, h2⟩).aggregateID = (s.items.get ⟨i, h1⟩).aggregateID ∧
        (s2.items.get ⟨i, h2⟩).version = (s.items.get ⟨i, h1⟩).version) := by
  cases cf with
  | some err => simp [Replace] at h
  | none =>
    simp only [Replace] at h
    split at h
    · simp at h
    · split at h
      · simp at h
      · rename_i dbe hnd
        have hdbe : dbe = dbRecordOf c e := newDBEvent_ok_eq hnd
        split at h
        · split at h <;> simp at h
        · rename_i s3 hput
          rw [Prod.mk.injEq] at h
          obtain ⟨rfl, -⟩ := h
          unfold Store.putIfExists at hput
          split at hput
          · cases hput
          · split at hput
            · rename_i hhas
              cases hput
              subst hdbe
              refine ⟨by simp, ?_⟩
              intro i h1 h2
              simp only [List.get_eq_getElem, List.getElem_map]
              by_cases hsk : (s.items[i]).sameKey (dbRecordOf c e).aggregateID
                  (dbRecordOf c e).version = true
              · have hkey : (s.items[i]).aggregateID = e.aggregateID ∧
                    (s.items[i]).version = e.version := by
                  have h6 := sameKey_iff.mp hsk
                  simpa [dbRecordOf] using h6
                constructor
                · intro hnk
                  exact absurd hkey hnk
                · intro _
                  rw [if_pos hsk]
                  exact ⟨by simp [dbRecordOf, hkey.1], by simp [dbRecordOf, hkey.2]⟩
              · rw [if_neg hsk]
                constructor
                · intro _
                  rfl
                · intro hk
                  exfalso
                  apply hsk
                  apply sameKey_iff.mpr
                  simpa [dbRecordOf] using hk
            · cases hput

/-- The store after the C9 witness replace. -/
def c9Store : Store Nat Nat := (Replace natCodec none none c4Store (ev "A" 1 "U" (some 9))).1

/-- C9 witness: replacing the single record at `("A", 1)` keeps its key and
the store's record count. -/
theorem replace_frame_witness :
    c9Store.items.length = c4Store.items.length ∧
    ∀ i (h1 : i < c4Store.items.length) (h2 : i < c9Store.items.length),
      (¬((c4Store.items.get ⟨i, h1⟩).aggregateID = (ev "A" 1 "U" (some 9)).aggregateID ∧
          (c4Store.items.get ⟨i, h1⟩).version = (ev "A" 1 "U" (some 9)).version) →
        c9Store.items.get ⟨i, h2⟩ = c4Store.items.get ⟨i, h1⟩) ∧
      (((c4Store.items.get ⟨i, h1⟩).aggregateID = (ev "A" 1 "U" (some 9)).aggregateID ∧
          (c4Store.items.get ⟨i, h1⟩).version = (ev "A" 1 "U" (some 9)).version) →
        (c9Store.items.get ⟨i, h2⟩).aggregateID = (c4Store.items.get ⟨i, h1⟩).aggregateID ∧
        (c9Store.items.get ⟨i, h2⟩).version = (c4Store.items.get ⟨i, h1⟩).version) :=
  @replace_frame Nat Nat natCodec none none c4Store c9Store (ev "A" 1 "U" (some 9))
    (by decide)

/-- The primary key of a record. -/
def dbKey (x : DbEvent D R) : String × Int := (x.aggregateID, x.version)

/-- One rename step composed with the renames of the remaining keys equals
the rename over all keys, provided the step's key is not among the
remaining ones. -/
lemma rename_map_step {toType : String} {r : DbEvent D R} {ks : List (String × Int)}
    (hr : dbKey r ∉ ks) :
    ((fun x : DbEvent D R => if dbKey x ∈ ks then { x with eventType := toType } else x) ∘
      (fun x => if x.sameKey r.aggregateID r.version = true
        then { x with eventType := toType } else x)) =
    (fun x => if dbKey x ∈ dbKey r :: ks then { x with eventType := toType } else x) := by
  funext x
  by_cases hk : x.sameKey r.aggregateID r.version = true
  · have hkey : dbKey x = dbKey r := by
      obtain ⟨h1, h2⟩ := sameKey_iff.mp hk
      simp [dbKey, h1, h2]
    simp only [Function.comp_apply, if_pos hk]
    rw [show dbKey { x with eventType := toType } = dbKey x from rfl, hkey]
    simp [hr]
  · have hkey : dbKey x ≠ dbKey r := by
      intro hcon
      apply hk
      apply sameKey_iff.mpr
      exact ⟨congrArg Prod.fst hcon, congrArg Prod.snd hcon⟩
    simp only [Function.comp_apply, if_neg hk]
    by_cases hm : dbKey x ∈ ks
    · simp [hm, hkey]
    · simp [hm, hkey]

/-- Success characterisation of the rename loop: with no faults, distinct
snapshot keys, and every snapshot record present in the current table with
the old type tag, the loop renames exactly the records at the snapshot keys
and touches nothing else. -/
lemma renameLoop_ok {faults : Nat → Option AwsErr} {fromType toType : String} :
    ∀ (snap : List (DbEvent D R)) (idx : Nat) (cur : Store D R),
    (∀ i, i < snap.length → faults (idx + i) = none) →
    ((snap.map dbKey).Nodup) →
    (∀ r ∈ snap, cur.items.any
      (fun x => x.sameKey r.aggregateID r.version && x.eventType == fromType) = true) →
    renameLoop faults fromType toType snap idx cur =
      (⟨cur.items.map (fun x =>
          if dbKey x ∈ snap.map dbKey then { x with eventType := toType } else x)⟩, none) := by
  intro snap
  induction snap with
  | nil =>
    intro idx cur _ _ _
    have hid : cur.items.map (fun x =>
        if dbKey x ∈ ([] : List (DbEvent D R)).map dbKey
        then { x with eventType := toType } else x) = cur.items := by
      simp
    simp only [renameLoop, hid]
  | cons r rest ih =>
    intro idx cur hfaults hnodup hmem
    have h0 : faults idx = none := by
      have h1 := hfaults 0 (by simp)
      simpa using h1
    have hcond := hmem r (by simp)
    have hnodup2 : (dbKey r :: rest.map dbKey).Nodup := by simpa using hnodup
    have hrnot : dbKey r ∉ rest.map dbKey := (List.nodup_cons.mp hnodup2).1
    have hrest : (rest.map dbKey).Nodup := (List.nodup_cons.mp hnodup2).2
    simp only [renameLoop, Store.updateEventType, h0, hcond, if_pos]
    have hmem2 : ∀ r2 ∈ rest,
        (cur.items.map (fun x => if x.sameKey r.aggregateID r.version = true
          then { x with eventType := toType } else x)).any
          (fun x => x.sameKey r2.aggregateID r2.version && x.eventType == fromType)
          = true := by
      intro r2 hr2
      have h7 := hmem r2 (List.mem_cons_of_mem _ hr2)
      rw [List.any_eq_true] at h7 ⊢
      obtain ⟨x, hx, hpx⟩ := h7
      have hpx2 : x.sameKey r2.aggregateID r2.version = true ∧
          (x.eventType == fromType) = true := by simpa using hpx
      have hxr2 : dbKey x = dbKey r2 := by
        obtain ⟨ha, hb⟩ := sameKey_iff.mp hpx2.1
        simp [dbKey, ha, hb]
      have hne : dbKey x ≠ dbKey r := by
        rw [hxr2]
        intro hc
        exact hrnot (hc ▸ List.mem_map_of_mem dbKey hr2)
      have hgx : (if x.sameKey r.aggregateID r.version = true
          then { x with eventType := toType } else x) = x := by
        rw [if_neg]
        intro hc
        obtain ⟨ha, hb⟩ := sameKey_iff.mp hc
        exact hne (by simp [dbKey, ha, hb])
      refine ⟨x, List.mem_map.mpr ⟨x, hx, hgx⟩, hpx⟩
    rw [ih (idx + 1) ⟨cur.items.map (fun x => if x.sameKey r.aggregateID r.version = true
        then { x with eventType := toType } else x)⟩
      (fun i hi => by
        have h9 := hfaults (i + 1) (by simpa using hi)
        rwa [show idx + (i + 1) = idx + 1 + i from by omega] at h9)
      hrest hmem2]
    rw [Prod.mk.injEq]
    refine ⟨?_, rfl⟩
    rw [Store.mk.injEq, List.map_map, rename_map_step hrnot]
    simp

/-- Failure characterisation of the rename loop: when the `j`-th update is
the first to fail, the loop returns the wrapped underlying error, the first
`j` snapshot records stay renamed (no rollback), and nothing else was
touched. -/
lemma renameLoop_fault {faults : Nat → Option AwsErr} {fromType toType : String}
    {err : AwsErr} :
    ∀ (snap : List (DbEvent D R)) (j idx : Nat) (cur : Store D R),
    j < snap.length →
    (∀ i, i < j → faults (idx + i) = none) →
    faults (idx + j) = some err →
    ((snap.map dbKey).Nodup) →
    (∀ r ∈ snap, cur.items.any
      (fun x => x.sameKey r.aggregateID r.version && x.eventType == fromType) = true) →
    renameLoop faults fromType toType snap idx cur =
      (⟨cur.items.map (fun x =>
          if dbKey x ∈ (snap.take j).map dbKey then { x with eventType := toType } else x)⟩,
       some (.storeErr { err := .aws err })) := by
  intro snap
  induction snap with
  | nil =>
    intro j idx cur hj
    exact absurd hj (by simp)
  | cons r rest ih =>
    intro j idx cur hj hpre hfj hnodup hmem
    cases j with
    | zero =>
      have hf0 : faults idx = some err := by simpa using hfj
      have hid : cur.items.map (fun x =>
          if dbKey x ∈ (((r :: rest).take 0).map dbKey)
          then { x with eventType := toType } else x) = cur.items := by
        simp
      simp only [renameLoop, Store.updateEventType, hf0, hid]
    | succ j2 =>
      have h0 : faults idx = none := by
        have h1 := hpre 0 (by omega)
        simpa using h1
      have hcond := hmem r (by simp)
      have hnodup2 : (dbKey r :: rest.map dbKey).Nodup := by simpa using hnodup
      have hrnot : dbKey r ∉ rest.map dbKey := (List.nodup_cons.mp hnodup2).1
      have hrest : (rest.map dbKey).Nodup := (List.nodup_cons.mp hnodup2).2
      have hrnot2 : dbKey r ∉ (rest.take j2).map dbKey := by
        intro hc
        exact hrnot (List.Sublist.mem hc ((List.take_sublist j2 rest).map dbKey))
      simp only [renameLoop, Store.updateEventType, h0, hcond, if_pos]
      have hmem2 : ∀ r2 ∈ rest,
          (cur.items.map (fun x => if x.sameKey r.aggregateID r.version = true
            then { x with eventType := toType } else x)).any
            (fun x => x.sameKey r2.aggregateID r2.version && x.eventType == fromType)
            = true := by
        intro r2 hr2
        have h7 := hmem r2 (List.mem_cons_of_mem _ hr2)
        rw [List.any_eq_true] at h7 ⊢
        obtain ⟨x, hx, hpx⟩ := h7
        have hpx2 : x.sameKey r2.aggregateID r2.version = true ∧
            (x.eventType == fromType) = true := by simpa using hpx
        have hxr2 : dbKey x = dbKey r2 := by
          obtain ⟨ha, hb⟩ := sameKey_iff.mp hpx2.1
          simp [dbKey, ha, hb]
        have hne : dbKey x ≠ dbKey r := by
          rw [hxr2]
          intro hc
          exact hrnot (hc ▸ List.mem_map_of_mem dbKey hr2)
        have hgx : (if x.sameKey r.aggregateID r.version = true
            then { x with eventType := toType } else x) = x := by
          rw [if_neg]
          intro hc
          obtain ⟨ha, hb⟩ := sameKey_iff.mp hc
          exact hne (by simp [dbKey, ha, hb])
        refine ⟨x, List.mem_map.mpr ⟨x, hx, hgx⟩, hpx⟩
      rw [ih j2 (idx + 1) ⟨cur.items.map (fun x => if x.sameKey r.aggregateID r.version = true
          then { x with eventType := toType } else x)⟩
        (by simp only [List.length_cons] at hj; omega)
        (fun i hi => by
          have h9 := hpre (i + 1) (by omega)
          rwa [show idx + (i + 1) = idx + 1 + i from by omega] at h9)
        (by rwa [show idx + 1 + j2 = idx + (j2 + 1) from by omega])
        hrest hmem2]
      rw [Prod.mk.injEq]
      refine ⟨?_, rfl⟩
      rw [Store.mk.injEq, List.map_map, List.take_succ_cons, List.map_cons,
        rename_map_step hrnot2]

/-- C10: under key uniqueness (DynamoDB's primary-key guarantee),
`RenameEvent` touches only records whose `event_type` equals `fromType`,
updating just that field; records not matching are unchanged; and when an
update fails, the whole rename aborts with the wrapped underlying error,
the records renamed before the failure staying renamed (no rollback) and
nothing else touched. -/
theorem renameEvent_frame {faults : Nat → Option AwsErr} {s : Store D R}
    {fromType toType : String}
    (hkeys : (s.items.map dbKey).Nodup) :
    ((∀ i, i < (s.items.filter (fun x => x.eventType == fromType)).length →
        faults i = none) →
      RenameEvent none faults s fromType toType =
        (⟨s.items.map (fun x =>
            if x.eventType == fromType then { x with eventType := toType } else x)⟩,
         none)) ∧
    (∀ j err, j < (s.items.filter (fun x => x.eventType == fromType)).length →
      (∀ i, i < j → faults i = none) →
      faults j = some err →
      RenameEvent none faults s fromType toType =
        (⟨s.items.map (fun x =>
            if dbKey x ∈ (((s.items.filter (fun y => y.eventType == fromType)).take j).map
              dbKey)
            then { x with eventType := toType } else x)⟩,
         some (.storeErr { err := .aws err }))) := by
  have hsnapnodup : ((s.items.filter (fun x => x.eventType == fromType)).map dbKey).Nodup :=
    List.Nodup.sublist ((List.filter_sublist s.items).map dbKey) hkeys
  have hmem : ∀ r ∈ s.items.filter (fun x => x.eventType == fromType),
      s.items.any (fun x => x.sameKey r.aggregateID r.version && x.eventType == fromType)
        = true := by
    intro r hr
    rw [List.mem_filter] at hr
    rw [List.any_eq_true]
    refine ⟨r, hr.1, ?_⟩
    rw [Bool.and_eq_true]
    exact ⟨sameKey_iff.mpr ⟨rfl, rfl⟩, hr.2⟩
  constructor
  · intro hf
    simp only [RenameEvent]
    rw [renameLoop_ok (s.items.filter (fun x => x.eventType == fromType)) 0 s
      (fun i hi => by simpa using hf i hi) hsnapnodup hmem]
    rw [Prod.mk.injEq]
    refine ⟨?_, rfl⟩
    rw [Store.mk.injEq]
    apply List.map_congr_left
    intro x hx
    by_cases het : (x.eventType == fromType) = true
    · have hxs : x ∈ s.items.filter (fun x => x.eventType == fromType) :=
        List.mem_filter.mpr ⟨hx, het⟩
      rw [if_pos (List.mem_map_of_mem dbKey hxs), if_pos het]
    · have hnm : dbKey x ∉ (s.items.filter (fun x => x.eventType == fromType)).map dbKey := by
        intro hc
        obtain ⟨y, hy, hyx⟩ := List.mem_map.mp hc
        have hyi : y ∈ s.items := (List.mem_filter.mp hy).1
        have hyx2 : y = x := List.inj_on_of_nodup_map hkeys hyi hx hyx
        exact het (hyx2 ▸ (List.mem_filter.mp hy).2)
      rw [if_neg hnm, if_neg het]
  · intro j err hj hpre hfj
    simp only [RenameEvent]
    rw [renameLoop_fault (s.items.filter (fun x => x.eventType == fromType)) j 0 s hj
      (fun i hi => by simpa using hpre i hi) (by simpa using hfj) hsnapnodup hmem]

/-- A store with one "Old"-typed record and one "Other"-typed record. -/
def c10Store : Store Nat Nat :=
  ⟨[{ aggregateID := "A", version := 1, eventType := "Old", rawData := none, data := none,
      timestamp := 0, aggregateType := "AggT", metadata := 0 },
    { aggregateID := "A", version := 2, eventType := "Other", rawData := none, data := none,
      timestamp := 0, aggregateType := "AggT", metadata := 0 }]⟩

/-- Faults making every update fail. -/
def failAll : Nat → Option AwsErr := fun _ => some (.generic "ufail")

/-- C10 witness: renaming "Old" to "New" over `c10Store` renames exactly
the matching record when updates succeed; with the first update failing,
the rename aborts with the wrapped error and nothing is renamed. -/
theorem renameEvent_frame_witness :
    RenameEvent none noFaults c10Store "Old" "New" =
      (⟨c10Store.items.map (fun x =>
          if x.eventType == "Old" then { x with eventType := "New" } else x)⟩, none) ∧
    RenameEvent none failAll c10Store "Old" "New" =
      (⟨c10Store.items.map (fun x =>
          if dbKey x ∈ (((c10Store.items.filter (fun y => y.eventType == "Old")).take 0).map
            dbKey)
          then { x with eventType := "New" } else x)⟩,
       some (.storeErr { err := .aws (.generic "ufail") })) :=
  ⟨(@renameEvent_frame Nat Nat noFaults c10Store "Old" "New" (by decide)).1
      (fun i hi => rfl),
   (@renameEvent_frame Nat Nat failAll c10Store "Old" "New" (by decide)).2
      0 (.generic "ufail") (by decide) (fun i hi => absurd hi (by omega)) rfl⟩

end EhDynamo
